import Mathlib

/-
Verification of the JSON-RPC codec and request pipeline of
quarkchain/cluster/jsonrpc.py (pyquarkchain).

The Python source is shallowly embedded:
  * Python `str` values are modelled as `List Char` (dict keys, which are only
    ever compared, are modelled as Lean `String`);
  * Python `bytes` values are modelled as `List Nat` with every element < 256;
  * Python `int` is modelled as `Int` (arbitrary precision, signed);
  * a Python function that can raise is modelled as `Except PyErr _`;
  * JSON parameter values are modelled by the inductive type `Json`.

External collaborators (ethereum.utils, quarkchain.core, the master service)
are modelled from their documented behavior where the claims need them; each
such definition carries a doc comment saying what is modelled.
-/

/-- Errors a Python function in this module can raise.  `invalidParams` is
jsonrpcserver's InvalidParams; `valueError`, `typeError`, `attributeError` and
`assertionError` are the built-in Python exception classes of those names
(only the classes relevant to this module are modelled; the extra payload
arguments of some raise sites are omitted). -/
inductive PyErr where
  | invalidParams (msg : String)
  | valueError
  | typeError
  | attributeError
  | assertionError
deriving DecidableEq

deriving instance DecidableEq for Except

/-- Discriminates the client-facing InvalidParams error from the built-in
Python exceptions. -/
def PyErr.isInvalidParams : PyErr → Bool
  | .invalidParams _ => true
  | _ => false

/-- A JSON value, as Python's json module hands it to the RPC handlers:
strings, numbers, booleans, null, arrays and objects.  Object keys are
modelled as Lean `String`; string values as `List Char` because the codecs
process them character by character. -/
inductive Json where
  | str (s : List Char)
  | num (n : Int)
  | jbool (b : Bool)
  | null
  | arr (elems : List Json)
  | obj (fields : List (String × Json))

/-- Mirrors `is_json_string(data)`, i.e. `isinstance(data, str)`. -/
def jsonIsStr : Json → Bool
  | .str _ => true
  | _ => false

/-- The value of an ASCII hex digit (0-9, a-f, A-F), `none` otherwise.
This is the digit alphabet both of Python's `int(_, 16)` and of
`bytes.fromhex`. -/
def hexVal (c : Char) : Option Nat :=
  if 48 ≤ c.toNat ∧ c.toNat ≤ 57 then some (c.toNat - 48)
  else if 97 ≤ c.toNat ∧ c.toNat ≤ 102 then some (c.toNat - 97 + 10)
  else if 65 ≤ c.toNat ∧ c.toNat ≤ 70 then some (c.toNat - 65 + 10)
  else none

/-- The lowercase hex digit for a value < 16 (as produced by Python's hex
formatting of bytes). -/
def hexChar (n : Nat) : Char :=
  if n < 10 then Char.ofNat (48 + n) else Char.ofNat (87 + n)

/-- Modelled from the library: `ethereum.utils.encode_hex` on Python 3
hex-encodes a byte string to a lowercase hex string, two digits per byte. -/
def encodeHex : List Nat → List Char
  | [] => []
  | b :: bs => hexChar (b / 16) :: hexChar (b % 16) :: encodeHex bs

/-- An ASCII whitespace character as stripped by Python's `int(str, base)`
(space, tab, newline, carriage return, vertical tab, form feed). -/
def isPyWs (c : Char) : Bool :=
  c.toNat == 32 || c.toNat == 9 || c.toNat == 10 || c.toNat == 13 ||
    c.toNat == 11 || c.toNat == 12

/-- Strip leading and trailing Python whitespace. -/
def trimWs (s : List Char) : List Char :=
  ((s.dropWhile isPyWs).reverse.dropWhile isPyWs).reverse

/-- Hex digits with single underscores allowed between digits, continuing an
accumulated value; the tail of Python's base-16 digit grammar after the first
digit. -/
def pyHexDigits (acc : Nat) : List Char → Option Nat
  | [] => some acc
  | c :: cs =>
    if c = '_' then
      match cs with
      | c2 :: cs2 =>
        match hexVal c2 with
        | some v => pyHexDigits (16 * acc + v) cs2
        | none => none
      | [] => none
    else
      match hexVal c with
      | some v => pyHexDigits (16 * acc + v) cs
      | none => none

/-- A nonempty run of hex digits (with underscores between digits). -/
def pyHexStart : List Char → Option Nat
  | [] => none
  | c :: cs =>
    match hexVal c with
    | some v => pyHexDigits v cs
    | none => none

/-- The body of Python's base-16 integer grammar: an optional `0x`/`0X`
marker (optionally followed by a single underscore), then digits. -/
def pyHexBody (s : List Char) : Option Nat :=
  match s with
  | c0 :: c1 :: rest =>
    if c0 = '0' ∧ (c1 = 'x' ∨ c1 = 'X') then
      match rest with
      | c2 :: rest2 => if c2 = '_' then pyHexStart rest2 else pyHexStart (c2 :: rest2)
      | [] => none
    else pyHexStart (c0 :: c1 :: rest)
  | s => pyHexStart s

/-- Modelled from the language: the ASCII core of CPython's `int(s, 16)`
(`PyLong_FromString`).  It strips surrounding ASCII whitespace, accepts an
optional sign, an optional `0x`/`0X` marker, and hex digits with single
underscores between digits.  Returns `none` where Python raises ValueError.
The full parser first maps non-ASCII characters to ASCII; see `pyInt16`. -/
def pyInt16Ascii (s : List Char) : Option Int :=
  match trimWs s with
  | [] => none
  | c :: rest =>
    if c = '+' then (pyHexBody rest).map (fun n => (n : Int))
    else if c = '-' then (pyHexBody rest).map (fun n => -(n : Int))
    else (pyHexBody (c :: rest)).map (fun n => (n : Int))

/-- Modelled from the language: the Unicode whitespace characters above 127
(`Py_UNICODE_ISSPACE`): next line, no-break space, ogham space mark, the
en/em quads and spaces, line and paragraph separators, narrow no-break
space, medium mathematical space and ideographic space. -/
def pyWsHigh (c : Char) : Bool :=
  c.toNat == 0x85 || c.toNat == 0xa0 || c.toNat == 0x1680 ||
    (0x2000 ≤ c.toNat && c.toNat ≤ 0x200a) || c.toNat == 0x2028 ||
    c.toNat == 0x2029 || c.toNat == 0x202f || c.toNat == 0x205f ||
    c.toNat == 0x3000

/-- Modelled from the language: the first code points of the runs of ten
decimal digits (Unicode category Nd) above 127, per the Unicode 14.0 table
of CPython 3.11 — a superset of the tables of the older interpreters the
repository supports, which only strengthens the rejection theorems below. -/
def pyDecimalStarts : List Nat :=
  [0x660, 0x6f0, 0x7c0, 0x966, 0x9e6, 0xa66, 0xae6, 0xb66, 0xbe6, 0xc66,
   0xce6, 0xd66, 0xde6, 0xe50, 0xed0, 0xf20, 0x1040, 0x1090, 0x17e0, 0x1810,
   0x1946, 0x19d0, 0x1a80, 0x1a90, 0x1b50, 0x1bb0, 0x1c40, 0x1c50, 0xa620,
   0xa8d0, 0xa900, 0xa9d0, 0xa9f0, 0xaa50, 0xabf0, 0xff10, 0x104a0, 0x10d30,
   0x11066, 0x110f0, 0x11136, 0x111d0, 0x112f0, 0x11450, 0x114d0, 0x11650,
   0x116c0, 0x11730, 0x118e0, 0x11950, 0x11c50, 0x11d50, 0x11da0, 0x16a60,
   0x16ac0, 0x16b50, 0x1d7ce, 0x1d7d8, 0x1d7e2, 0x1d7ec, 0x1d7f6, 0x1e140,
   0x1e2f0, 0x1e950, 0x1fbf0]

/-- Modelled from the language: `Py_UNICODE_TODECIMAL`, the decimal value of
a Unicode decimal digit above 127 (each run of ten starts at a code point in
`pyDecimalStarts`). -/
def pyUniDecimal (c : Char) : Option Nat :=
  match pyDecimalStarts.find? (fun s => decide (s ≤ c.toNat) && decide (c.toNat ≤ s + 9)) with
  | some s => some (c.toNat - s)
  | none => none

/-- Modelled from the language: CPython's
`_PyUnicode_TransformDecimalAndSpaceToASCII`, applied to each character
before integer parsing: characters below 127 are kept, non-ASCII whitespace
becomes a space, a non-ASCII decimal digit becomes its ASCII digit, and any
other non-ASCII character becomes `?` (which the ASCII parser then
rejects). -/
def transformChar (c : Char) : Char :=
  if c.toNat < 127 then c
  else if pyWsHigh c then ' '
  else
    match pyUniDecimal c with
    | some d => Char.ofNat (48 + d)
    | none => '?'

/-- Modelled from the language: CPython's `int(s, 16)` on a `str`: the
decimal-and-space-to-ASCII transform followed by the ASCII parser.
Returns `none` where Python raises ValueError. -/
def pyInt16 (s : List Char) : Option Int :=
  pyInt16Ascii (s.map transformChar)

/-- Modelled from the library: the core of `bytes.fromhex` (Python 3.6).
Spaces are allowed between bytes; each byte is two adjacent hex digits;
anything else is a ValueError, signalled here by `none`. -/
def fromhexAux : List Char → Option (List Nat)
  | [] => some []
  | c :: cs =>
    if c = ' ' then fromhexAux cs
    else
      match cs with
      | c2 :: cs2 =>
        match hexVal c, hexVal c2 with
        | some v1, some v2 => (fromhexAux cs2).map (fun bs => (16 * v1 + v2) :: bs)
        | _, _ => none
      | [] => none

/-- Modelled from the library: `ethereum.utils.decode_hex` on Python 3
delegates to `bytes.fromhex`, which raises ValueError on malformed hex (it
raises TypeError only for non-string arguments, which cannot occur at this
module's call sites because the argument is always a slice of a `str`). -/
def decode_hex (digits : List Char) : Except PyErr (List Nat) :=
  match fromhexAux digits with
  | some bs => .ok bs
  | none => .error .valueError

/-- Does the string start with the two characters `0x`?  Mirrors Python's
`data.startswith("0x")` (case sensitive). -/
def startsWith0x (s : List Char) : Bool :=
  match s with
  | c0 :: c1 :: _ => c0 == '0' && c1 == 'x'
  | _ => false

/-- Embeds `quantity_decoder` from jsonrpc.py.  Rejects non-strings, strings
without the `0x` marker, and strings with a leading zero digit (when longer
than three characters); otherwise parses the remainder with `int(_, 16)`. -/
def quantity_decoder (data : Json) : Except PyErr Int :=
  match data with
  | .str s =>
    if ¬ startsWith0x s then .error (.invalidParams "Invalid quantity encoding")
    else if 3 < s.length ∧ s.getD 2 ' ' = '0' then
      .error (.invalidParams "Invalid quantity encoding")
    else
      match pyInt16 (s.drop 2) with
      | some n => .ok n
      | none => .error (.invalidParams "Invalid quantity encoding")
  | _ => .error (.invalidParams "Invalid quantity encoding")

/-- Modelled from the library: `ethereum.utils.int_to_big_endian` serializes
a non-negative integer as its minimal big-endian byte string (zero becomes
the empty string). -/
def intToBigEndian (n : Nat) : List Nat :=
  if h : n = 0 then []
  else
    have : n / 256 < n := Nat.div_lt_self (Nat.pos_of_ne_zero h) (by norm_num)
    intToBigEndian (n / 256) ++ [n % 256]

/-- Embeds `quantity_encoder` from jsonrpc.py.  The `assert is_numeric(i)` is
discharged by the `Int` type; on a negative argument the library's
`int_to_big_endian` raises (modelled as `valueError`).  Otherwise it produces
`"0x"` plus the hex digits with leading zero digits stripped (`"0"` for
zero). -/
def quantity_encoder (i : Int) : Except PyErr (List Char) :=
  if i < 0 then .error .valueError
  else
    let hx := (encodeHex (intToBigEndian i.toNat)).dropWhile (fun c => c == '0')
    .ok ('0' :: 'x' :: (if hx.isEmpty then ['0'] else hx))

/-- The `try: decode_hex ... except TypeError` block of `data_decoder`:
only TypeError is converted to InvalidParams; any other error propagates. -/
def decode_hex_try (digits : List Char) : Except PyErr (List Nat) :=
  match decode_hex digits with
  | .ok bs => .ok bs
  | .error .typeError => .error (.invalidParams "Invalid data hex encoding")
  | .error e => .error e

/-- Embeds `data_decoder` from jsonrpc.py on a string argument.  Prepends
`0x` when missing; on an odd total length asserts `len(data) < 66` and
zero-left-pads the digits to 64; finally hex-decodes the digits. -/
def data_decoder_str (s : List Char) : Except PyErr (List Nat) :=
  let data := if startsWith0x s then s else '0' :: 'x' :: s
  if data.length % 2 ≠ 0 then
    if data.length < 66 then
      decode_hex_try (List.replicate (64 - (data.length - 2)) '0' ++ data.drop 2)
    else .error .assertionError
  else decode_hex_try (data.drop 2)

/-- Embeds `data_decoder` on an arbitrary JSON value: a non-string argument
fails at `data.startswith`, i.e. with AttributeError. -/
def data_decoder (j : Json) : Except PyErr (List Nat) :=
  match j with
  | .str s => data_decoder_str s
  | _ => .error .attributeError

/-- Embeds `data_encoder` from jsonrpc.py: hex-encode, and when a length is
given right-justify the hex string to `length * 2` characters with zeros
(Python's `str.rjust`, which never truncates). -/
def data_encoder (data : List Nat) (length : Option Nat) : List Char :=
  let s := encodeHex data
  match length with
  | none => '0' :: 'x' :: s
  | some l => '0' :: 'x' :: (List.replicate (l * 2 - s.length) '0' ++ s)

/-- Modelled from the spec: an Address is an opaque fixed-format byte buffer
decoded and encoded by an external serializer; the codec is format-agnostic
about its layout, so it is modelled as the raw buffer.  `recipient` is the
field the transaction builder embeds in the EVM transaction. -/
structure Address where
  buf : List Nat
deriving DecidableEq

/-- The recipient field of an Address (modelled as the raw buffer, since the
codec under verification never inspects its layout). -/
def Address.recipient (a : Address) : List Nat := a.buf

/-- Modelled from the spec: a Branch is an opaque domain identifier
partitioning the ledger, passed as an already-serialized buffer. -/
structure Branch where
  buf : List Nat
deriving DecidableEq

/-- The numeric value of a Branch (modelled as the big-endian value of its
buffer; the codec under verification only passes it through). -/
def Branch.value (b : Branch) : Nat :=
  b.buf.foldl (fun a x => 256 * a + x) 0

/-- Modelled from the spec: the external serialize/deserialize capability
pair bound to one domain object kind (the `cls` argument of `obj_decoder`
and `obj_encoder`). -/
structure DomainCls (α : Type) where
  deserialize : List Nat → Except String α
  serialize : α → List Nat

/-- Modelled from the spec: the Address serializer (opaque buffer, so
deserialization is total here). -/
def AddressCls : DomainCls Address := ⟨fun b => .ok ⟨b⟩, Address.buf⟩

/-- Modelled from the spec: the Branch serializer (opaque buffer). -/
def BranchCls : DomainCls Branch := ⟨fun b => .ok ⟨b⟩, Branch.buf⟩

/-- Embeds `obj_decoder` from jsonrpc.py: hex-decode (errors propagate),
then deserialize, wrapping any deserialization failure as InvalidParams. -/
def obj_decoder {α : Type} (data : Json) (cls : DomainCls α) : Except PyErr α :=
  match data_decoder data with
  | .error e => .error e
  | .ok raw =>
    match cls.deserialize raw with
    | .ok obj => .ok obj
    | .error msg => .error (.invalidParams msg)

/-- Embeds `obj_encoder` from jsonrpc.py (the isinstance assertion is
discharged by the type). -/
def obj_encoder {α : Type} (obj : α) (cls : DomainCls α) : List Char :=
  '0' :: 'x' :: encodeHex (cls.serialize obj)

/-- Embeds `address_decoder`. -/
def address_decoder (data : Json) : Except PyErr Address :=
  obj_decoder data AddressCls

/-- Embeds `address_encoder`. -/
def address_encoder (address : Address) : List Char :=
  obj_encoder address AddressCls

/-- Embeds `branch_decoder` from jsonrpc.py.  The Python function computes
`obj_decoder(data, Branch)` but has no return statement, so errors propagate
and every successful call returns None. -/
def branch_decoder (data : Json) : Except PyErr (Option Branch) :=
  (obj_decoder data BranchCls).map (fun _ => none)

/-- Embeds `branch_encoder` from jsonrpc.py.  The Python function computes
`obj_encoder(branch, Branch)` but has no return statement, so it returns
None. -/
def branch_encoder (branch : Branch) : Option (List Char) :=
  let _ := obj_encoder branch BranchCls
  none

/-- Modelled from the spec: the EVM transaction constructed by
`sendTransaction` from the validated fields (an external domain type; only
the constructor arguments matter to this module). -/
structure EvmTransaction where
  nonce : Int
  gasprice : Int
  startgas : Int
  to_ : List Nat
  value : Int
  data : List Nat
  v : Int
  r : Int
  s : Int
  branchValue : Nat
  withdraw : Int
  withdrawSign : Int
  withdrawTo : List Nat
deriving DecidableEq

/-- Modelled from the spec: `Code.createEvmCode` wraps an EVM transaction as
transaction code (external domain type, opaque to this module). -/
structure Code where
  evm : EvmTransaction
deriving DecidableEq

/-- Modelled from the spec: wraps an EVM transaction as code. -/
def Code.createEvmCode (e : EvmTransaction) : Code := ⟨e⟩

/-- Modelled from the spec: the domain Transaction handed to the master
service. -/
structure Transaction where
  code : Code
deriving DecidableEq

/-- Modelled from the spec: a stand-in for the sha3 serialization digest; the
spec only requires that a transaction's hash is some 32-byte buffer. -/
def sha3Model (bs : List Nat) : List Nat :=
  (List.range 32).map (fun i => bs.foldl (fun a b => (a * 31 + b + 1) % 256) i)

/-- Modelled from the spec: a flat serialization of the EVM transaction
fields, feeding the hash model. -/
def EvmTransaction.serializeModel (e : EvmTransaction) : List Nat :=
  intToBigEndian e.nonce.toNat ++ intToBigEndian e.gasprice.toNat ++
    intToBigEndian e.startgas.toNat ++ e.to_ ++ intToBigEndian e.value.toNat ++
    e.data ++ intToBigEndian e.v.toNat ++ intToBigEndian e.r.toNat ++
    intToBigEndian e.s.toNat ++ intToBigEndian e.branchValue ++
    intToBigEndian e.withdraw.toNat ++ e.withdrawTo

/-- Modelled from the spec: the 32-byte transaction hash (sha3 of the
serialization). -/
def Transaction.hash (t : Transaction) : List Nat :=
  sha3Model t.code.evm.serializeModel

/-- Exception-propagating sequencing: run `x`; on error re-raise, otherwise
continue with the result.  This is how each statement of the Python handlers
is chained. -/
def pyTry {α β : Type} (x : Except PyErr α) (f : α → Except PyErr β) : Except PyErr β :=
  match x with
  | .error e => .error e
  | .ok a => f a

/-- Embeds the local helper `getDataDefault(key, decoder, default)` of
`sendTransaction`: decode the value under `key` if present, else return the
default. -/
def getDataDefault {α : Type} (data : List (String × Json)) (key : String)
    (decoder : Json → Except PyErr α) (default : α) : Except PyErr α :=
  match data.lookup key with
  | some v => decoder v
  | none => .ok default

/-- An Address decoder used with default None (`to`, `withdrawTo` fields):
the decoded value sits in an optional slot. -/
def address_decoder_opt (j : Json) : Except PyErr (Option Address) :=
  (address_decoder j).map some

/-- A Quantity decoder used with default None (`nonce` field). -/
def quantity_decoder_opt (j : Json) : Except PyErr (Option Int) :=
  (quantity_decoder j).map some

/-- Mirrors `default_startgas = 500 * 1000`. -/
def default_startgas : Int := 500 * 1000

/-- Mirrors `default_gasprice = 60 * denoms.shannon` (shannon = 10^9). -/
def default_gasprice : Int := 60 * 10 ^ 9

/-- Embeds `JSONRPCServer.sendTransaction`.  The master service's `addTx` is
modelled as always succeeding (the claims condition on successful
submission), so a successful run returns the constructed transaction, the
branch value passed to `addTx`, and the hex-encoded hash that the handler
returns; an exception anywhere aborts the handler with that error. -/
def sendTransaction (params : Json) : Except PyErr (Transaction × Branch × List Char) :=
  match params with
  | .obj d =>
    pyTry (getDataDefault d "to" address_decoder_opt none) (fun to_ =>
    pyTry (getDataDefault d (if (d.lookup "gas").isSome then "gas" else "startgas")
        quantity_decoder default_startgas) (fun startgas =>
    pyTry (getDataDefault d (if (d.lookup "gasPrice").isSome then "gasPrice" else "gasprice")
        quantity_decoder default_gasprice) (fun gasprice =>
    pyTry (getDataDefault d "value" quantity_decoder 0) (fun value =>
    pyTry (getDataDefault d "data" data_decoder []) (fun data_ =>
    pyTry (getDataDefault d "v" quantity_decoder 0) (fun v =>
    pyTry (getDataDefault d "r" quantity_decoder 0) (fun r =>
    pyTry (getDataDefault d "s" quantity_decoder 0) (fun s =>
    pyTry (getDataDefault d "nonce" quantity_decoder_opt none) (fun nonce =>
    pyTry (getDataDefault d "branch" branch_decoder none) (fun branch =>
    pyTry (getDataDefault d "withdraw" quantity_decoder 0) (fun withdraw =>
    pyTry (getDataDefault d "withdrawTo" address_decoder_opt none) (fun withdrawTo =>
    match nonce with
    | none => .error (.invalidParams "Missing nonce")
    | some nonceV =>
      if v = 0 ∨ r = 0 ∨ s = 0 then .error (.invalidParams "Mising v, r, s")
      else
        match branch with
        | none => .error (.invalidParams "Missing branch")
        | some br =>
          if 0 < withdraw ∧ withdrawTo = none then
            .error (.invalidParams "Missing withdrawTo")
          else
            match to_ with
            | none => .error .attributeError
            | some toAddr =>
              let evmTx : EvmTransaction :=
                ⟨nonceV, gasprice, startgas, toAddr.recipient, value, data_,
                  v, r, s, br.value, withdraw, 1,
                  (match withdrawTo with
                   | some w => AddressCls.serialize w
                   | none => [])⟩
              let tx : Transaction := ⟨Code.createEvmCode evmTx⟩
              .ok (tx, br, data_encoder tx.hash none)))))))))))))
  | _ => .error (.invalidParams "Transaction must be an object")

/-- The result object of `getTransactionCount`: the `branch` entry is what
`branch_encoder` returns (a string or None), the `count` entry the encoded
quantity. -/
structure TxCountResult where
  branch : Option (List Char)
  count : List Char
deriving DecidableEq

/-- Embeds the body of `JSONRPCServer.getTransactionCount` after the master
service has answered with a branch and a count (the address argument is only
forwarded to the master and does not influence the result construction). -/
def getTransactionCount (branch : Branch) (count : Nat) : Except PyErr TxCountResult :=
  pyTry (quantity_encoder (count : Int)) (fun c =>
    .ok ⟨branch_encoder branch, c⟩)

/-- The value of a hex digit string read most-significant first, continuing
from an accumulator; the reference against which the digit parsers are
verified. -/
def hexFold (acc : Nat) (cs : List Char) : Nat :=
  cs.foldl (fun a c => 16 * a + (hexVal c).getD 0) acc

/-- The ASCII characters the base-16 parser core can ever accept: hex
digits, underscores, signs, ASCII whitespace and the `x`/`X` of the base
marker. -/
def pyIntCharAscii (c : Char) : Bool :=
  (hexVal c).isSome || c == '_' || c == '+' || c == '-' || isPyWs c ||
    c == 'x' || c == 'X'

/-- The characters Python's `int(_, 16)` can ever accept: the ASCII
alphabet above plus, via the pre-parse transform, Unicode whitespace and
Unicode decimal digits.  A string holding any character outside this set is
rejected by `int(_, 16)`. -/
def pyIntChar (c : Char) : Bool :=
  pyIntCharAscii c || pyWsHigh c || (pyUniDecimal c).isSome

-- Helper lemmas: hex digits and characters.

theorem hexVal_hexChar : ∀ n < 16, hexVal (hexChar n) = some n := by decide

theorem hexVal_isSome_toNat {c : Char} (h : (hexVal c).isSome) :
    (48 ≤ c.toNat ∧ c.toNat ≤ 57) ∨ (97 ≤ c.toNat ∧ c.toNat ≤ 102) ∨
      (65 ≤ c.toNat ∧ c.toNat ≤ 70) := by
  unfold hexVal at h
  split_ifs at h with h1 h2 h3
  · exact Or.inl h1
  · exact Or.inr (Or.inl h2)
  · exact Or.inr (Or.inr h3)
  · simp at h

theorem hexVal_not_ws {c : Char} (h : (hexVal c).isSome) : isPyWs c = false := by
  have ht := hexVal_isSome_toNat h
  simp only [isPyWs, Bool.or_eq_false_iff, beq_eq_false_iff_ne, ne_eq]
  omega

theorem hexVal_ne_space {c : Char} (h : (hexVal c).isSome) : c ≠ ' ' := by
  intro he; subst he; exact absurd h (by decide)

theorem hexVal_ne_underscore {c : Char} (h : (hexVal c).isSome) : c ≠ '_' := by
  intro he; subst he; exact absurd h (by decide)

theorem hexVal_ne_plus {c : Char} (h : (hexVal c).isSome) : c ≠ '+' := by
  intro he; subst he; exact absurd h (by decide)

theorem hexVal_ne_minus {c : Char} (h : (hexVal c).isSome) : c ≠ '-' := by
  intro he; subst he; exact absurd h (by decide)

theorem hexVal_ne_x {c : Char} (h : (hexVal c).isSome) : c ≠ 'x' := by
  intro he; subst he; exact absurd h (by decide)

theorem hexVal_ne_X {c : Char} (h : (hexVal c).isSome) : c ≠ 'X' := by
  intro he; subst he; exact absurd h (by decide)

-- Helper lemmas: encodeHex.

theorem encodeHex_length : ∀ bs : List Nat, (encodeHex bs).length = 2 * bs.length
  | [] => rfl
  | b :: bs => by
    simp only [encodeHex, List.length_cons, encodeHex_length bs]
    omega

theorem mem_encodeHex : ∀ bs : List Nat, (∀ b ∈ bs, b < 256) →
    ∀ c ∈ encodeHex bs, ∃ v, v < 16 ∧ c = hexChar v
  | [], _, c, hc => by simp [encodeHex] at hc
  | b :: bs, hb, c, hc => by
    have hb0 : b < 256 := hb b (by simp)
    have hbs : ∀ x ∈ bs, x < 256 := fun x hx => hb x (by simp [hx])
    simp only [encodeHex, List.mem_cons] at hc
    rcases hc with rfl | hc
    · exact ⟨b / 16, by omega, rfl⟩
    rcases hc with rfl | hc
    · exact ⟨b % 16, by omega, rfl⟩
    · exact mem_encodeHex bs hbs c hc

theorem encodeHex_all_hex {bs : List Nat} (hb : ∀ b ∈ bs, b < 256) :
    ∀ c ∈ encodeHex bs, (hexVal c).isSome := by
  intro c hc
  obtain ⟨v, hv, rfl⟩ := mem_encodeHex bs hb c hc
  rw [hexVal_hexChar v hv]
  rfl

-- Helper lemmas: hexFold as the reference value of a digit string.

theorem hexFold_nil (acc : Nat) : hexFold acc [] = acc := rfl

theorem hexFold_cons (acc : Nat) (c : Char) (cs : List Char) :
    hexFold acc (c :: cs) = hexFold (16 * acc + (hexVal c).getD 0) cs := rfl

theorem hexFold_all_zero : ∀ cs : List Char, (∀ c ∈ cs, c = '0') → hexFold 0 cs = 0
  | [], _ => rfl
  | c :: cs, h => by
    have hc : c = '0' := h c (by simp)
    subst hc
    rw [hexFold_cons]
    have : (16 * 0 + (hexVal '0').getD 0) = 0 := by decide
    rw [this]
    exact hexFold_all_zero cs (fun x hx => h x (by simp [hx]))

theorem hexFold_dropWhile_zero : ∀ cs : List Char,
    hexFold 0 (cs.dropWhile (fun c => c == '0')) = hexFold 0 cs
  | [] => rfl
  | c :: cs => by
    by_cases hc : c = '0'
    · subst hc
      rw [List.dropWhile_cons_of_pos (by simp)]
      rw [hexFold_dropWhile_zero cs, hexFold_cons]
      have : (16 * 0 + (hexVal '0').getD 0) = 0 := by decide
      rw [this]
    · rw [List.dropWhile_cons_of_neg (by simpa using hc)]

theorem hexFold_encodeHex : ∀ (bs : List Nat) (acc : Nat), (∀ b ∈ bs, b < 256) →
    hexFold acc (encodeHex bs) = bs.foldl (fun a b => 256 * a + b) acc
  | [], _, _ => rfl
  | b :: bs, acc, h => by
    have hb : b < 256 := h b (by simp)
    have hbs : ∀ x ∈ bs, x < 256 := fun x hx => h x (by simp [hx])
    have h1 : b / 16 < 16 := by omega
    have h2 : b % 16 < 16 := by omega
    show hexFold acc (hexChar (b / 16) :: hexChar (b % 16) :: encodeHex bs) = _
    rw [hexFold_cons, hexFold_cons, hexVal_hexChar _ h1, hexVal_hexChar _ h2]
    simp only [Option.getD_some]
    rw [hexFold_encodeHex bs _ hbs]
    have harith : 16 * (16 * acc + b / 16) + b % 16 = 256 * acc + b := by omega
    rw [harith]
    rfl

-- Helper lemmas: the big-endian integer serialization.

theorem intToBigEndian_lt (n : Nat) : ∀ b ∈ intToBigEndian n, b < 256 := by
  induction n using Nat.strong_induction_on with
  | _ n ih =>
    rw [intToBigEndian]
    by_cases h : n = 0
    · simp [h]
    · rw [dif_neg h]
      intro b hb
      rcases List.mem_append.mp hb with h1 | h2
      · exact ih (n / 256) (Nat.div_lt_self (Nat.pos_of_ne_zero h) (by norm_num)) b h1
      · simp only [List.mem_singleton] at h2
        subst h2
        omega

theorem foldl_intToBigEndian (n : Nat) :
    ∀ acc : Nat, (intToBigEndian n).foldl (fun a b => 256 * a + b) acc
      = acc * 256 ^ (intToBigEndian n).length + n := by
  induction n using Nat.strong_induction_on with
  | _ n ih =>
    intro acc
    rw [intToBigEndian]
    by_cases h : n = 0
    · simp [h]
    · rw [dif_neg h]
      have hq : n / 256 < n := Nat.div_lt_self (Nat.pos_of_ne_zero h) (by norm_num)
      rw [List.foldl_append, ih (n / 256) hq acc]
      simp only [List.foldl_cons, List.foldl_nil, List.length_append,
        List.length_cons, List.length_nil]
      have hpow : 256 ^ ((intToBigEndian (n / 256)).length + (0 + 1))
          = 256 ^ (intToBigEndian (n / 256)).length * 256 := by
        rw [Nat.zero_add, pow_succ]
      rw [hpow]
      have hdm : 256 * (n / 256) + n % 256 = n := Nat.div_add_mod n 256
      set K := 256 ^ (intToBigEndian (n / 256)).length with hK
      have : 256 * (acc * K + n / 256) + n % 256
          = acc * (K * 256) + (256 * (n / 256) + n % 256) := by ring
      rw [this, hdm]

theorem beVal_intToBigEndian (n : Nat) :
    (intToBigEndian n).foldl (fun a b => 256 * a + b) 0 = n := by
  rw [foldl_intToBigEndian n 0]
  simp

-- Helper lemmas: dropWhile and whitespace trimming.

theorem dropWhile_eq_self_of_forall {α : Type} {p : α → Bool} :
    ∀ l : List α, (∀ c ∈ l, p c = false) → l.dropWhile p = l
  | [], _ => rfl
  | c :: cs, h => by
    rw [List.dropWhile_cons_of_neg (by simp [h c (by simp)])]

theorem mem_dropWhile_of_not {α : Type} {p : α → Bool} {c : α} (hp : p c = false) :
    ∀ l : List α, c ∈ l → c ∈ l.dropWhile p
  | [], hc => by simp at hc
  | a :: l, hc => by
    by_cases ha : p a
    · rw [List.dropWhile_cons_of_pos ha]
      rcases List.mem_cons.mp hc with rfl | h
      · rw [hp] at ha; exact absurd ha (by simp)
      · exact mem_dropWhile_of_not hp l h
    · rwa [List.dropWhile_cons_of_neg ha]

theorem dropWhile_head_false {α : Type} {p : α → Bool} :
    ∀ {l cs : List α} {c : α}, l.dropWhile p = c :: cs → p c = false
  | a :: l, c, cs, h => by
    by_cases ha : p a
    · rw [List.dropWhile_cons_of_pos ha] at h
      exact dropWhile_head_false h
    · rw [List.dropWhile_cons_of_neg ha] at h
      cases h
      simpa using ha
  | [], c, cs, h => by simp at h

theorem trimWs_eq_self {l : List Char} (h : ∀ c ∈ l, isPyWs c = false) : trimWs l = l := by
  unfold trimWs
  rw [dropWhile_eq_self_of_forall l h]
  rw [dropWhile_eq_self_of_forall l.reverse (fun c hc => h c (List.mem_reverse.mp hc))]
  exact List.reverse_reverse l

theorem mem_trimWs {l : List Char} {c : Char} (hc : c ∈ l) (hp : isPyWs c = false) :
    c ∈ trimWs l := by
  unfold trimWs
  rw [List.mem_reverse]
  exact mem_dropWhile_of_not hp _
    (List.mem_reverse.mpr (mem_dropWhile_of_not hp _ hc))

-- Helper lemmas: evaluating the base-16 digit grammar on pure hex digits.

theorem pyHexDigits_cons_hex {acc : Nat} {c : Char} {cs : List Char} {v : Nat}
    (hv : hexVal c = some v) :
    pyHexDigits acc (c :: cs) = pyHexDigits (16 * acc + v) cs := by
  have hs : (hexVal c).isSome := by rw [hv]; rfl
  have hne : c ≠ '_' := hexVal_ne_underscore hs
  cases cs with
  | nil => rw [pyHexDigits.eq_3, if_neg hne, hv]
  | cons c2 cs2 => rw [pyHexDigits.eq_2, if_neg hne, hv]

theorem pyHexStart_cons_hex {c : Char} {cs : List Char} {v : Nat}
    (hv : hexVal c = some v) : pyHexStart (c :: cs) = pyHexDigits v cs := by
  rw [pyHexStart.eq_2, hv]

theorem pyHexDigits_all_hex :
    ∀ (cs : List Char) (acc : Nat), (∀ c ∈ cs, (hexVal c).isSome) →
      pyHexDigits acc cs = some (hexFold acc cs)
  | [], _, _ => rfl
  | c :: cs, acc, h => by
    have hc : (hexVal c).isSome := h c (by simp)
    have hcs : ∀ x ∈ cs, (hexVal x).isSome := fun x hx => h x (by simp [hx])
    obtain ⟨v, hv⟩ := Option.isSome_iff_exists.mp hc
    rw [pyHexDigits_cons_hex hv, pyHexDigits_all_hex cs (16 * acc + v) hcs,
      hexFold_cons, hv]
    rfl

theorem pyHexStart_all_hex {cs : List Char} (h : ∀ c ∈ cs, (hexVal c).isSome)
    (hne : cs ≠ []) : pyHexStart cs = some (hexFold 0 cs) := by
  rcases cs with _ | ⟨c, cs⟩
  · exact absurd rfl hne
  · have hc : (hexVal c).isSome := h c (by simp)
    obtain ⟨v, hv⟩ := Option.isSome_iff_exists.mp hc
    rw [pyHexStart_cons_hex hv, pyHexDigits_all_hex cs v (fun x hx => h x (by simp [hx])),
      hexFold_cons, hv]
    norm_num

theorem pyHexBody_no_marker {cs : List Char} (hne : cs ≠ []) (h0 : cs.headD ' ' ≠ '0') :
    pyHexBody cs = pyHexStart cs := by
  rcases cs with _ | ⟨c, _ | ⟨c2, rest⟩⟩
  · exact absurd rfl hne
  · rfl
  · have hc : c ≠ '0' := by simpa using h0
    have hcond : ¬ (c = '0' ∧ (c2 = 'x' ∨ c2 = 'X')) := fun hand => hc hand.1
    simp only [pyHexBody]
    rw [if_neg hcond]

theorem pyInt16Ascii_all_hex {cs : List Char} (h : ∀ c ∈ cs, (hexVal c).isSome)
    (hne : cs ≠ []) (h0 : cs.headD ' ' ≠ '0') :
    pyInt16Ascii cs = some ((hexFold 0 cs : Nat) : Int) := by
  have htrim : trimWs cs = cs := trimWs_eq_self (fun c hc => hexVal_not_ws (h c hc))
  rcases hcs : cs with _ | ⟨c, rest⟩
  · exact absurd hcs hne
  · subst hcs
    have hc : (hexVal c).isSome := h c (by simp)
    simp only [pyInt16Ascii, htrim]
    rw [if_neg (hexVal_ne_plus hc), if_neg (hexVal_ne_minus hc)]
    rw [pyHexBody_no_marker (by simp) h0, pyHexStart_all_hex h (by simp)]
    rfl

theorem hexVal_lt127 {c : Char} (h : (hexVal c).isSome) : c.toNat < 127 := by
  have := hexVal_isSome_toNat h
  omega

theorem transformChar_lt127 {c : Char} (h : c.toNat < 127) : transformChar c = c := by
  simp [transformChar, h]

theorem map_transformChar_hex : ∀ cs : List Char, (∀ c ∈ cs, (hexVal c).isSome) →
    cs.map transformChar = cs
  | [], _ => rfl
  | c :: cs, h => by
    rw [List.map_cons, transformChar_lt127 (hexVal_lt127 (h c (by simp))),
      map_transformChar_hex cs (fun x hx => h x (by simp [hx]))]

theorem pyInt16_all_hex {cs : List Char} (h : ∀ c ∈ cs, (hexVal c).isSome)
    (hne : cs ≠ []) (h0 : cs.headD ' ' ≠ '0') :
    pyInt16 cs = some ((hexFold 0 cs : Nat) : Int) := by
  rw [pyInt16, map_transformChar_hex cs h]
  exact pyInt16Ascii_all_hex h hne h0

-- Helper lemmas: bytes.fromhex.

theorem fromhexAux_encodeHex : ∀ bs : List Nat, (∀ b ∈ bs, b < 256) →
    fromhexAux (encodeHex bs) = some bs
  | [], _ => rfl
  | b :: bs, h => by
    have hb : b < 256 := h b (by simp)
    have hbs : ∀ x ∈ bs, x < 256 := fun x hx => h x (by simp [hx])
    have h1 : b / 16 < 16 := by omega
    have h2 : b % 16 < 16 := by omega
    have hv1 := hexVal_hexChar _ h1
    have hv2 := hexVal_hexChar _ h2
    have hs1 : (hexVal (hexChar (b / 16))).isSome := by rw [hv1]; rfl
    have hb' : 16 * (b / 16) + b % 16 = b := by omega
    show fromhexAux (hexChar (b / 16) :: hexChar (b % 16) :: encodeHex bs) = _
    rw [fromhexAux.eq_2, if_neg (hexVal_ne_space hs1), hv1, hv2,
      fromhexAux_encodeHex bs hbs]
    simp [hb']

theorem fromhexAux_allhex_even :
    ∀ l : List Char, (∀ c ∈ l, (hexVal c).isSome) → l.length % 2 = 0 →
      ∃ bs, fromhexAux l = some bs ∧ 2 * bs.length = l.length
  | [], _, _ => ⟨[], rfl, rfl⟩
  | [_], _, hp => by simp at hp
  | c1 :: c2 :: rest, h, hp => by
    have hc1 : (hexVal c1).isSome := h c1 (by simp)
    have hc2 : (hexVal c2).isSome := h c2 (by simp)
    obtain ⟨v1, hv1⟩ := Option.isSome_iff_exists.mp hc1
    obtain ⟨v2, hv2⟩ := Option.isSome_iff_exists.mp hc2
    have hrest : ∀ c ∈ rest, (hexVal c).isSome := fun c hc => h c (by simp [hc])
    have hp' : rest.length % 2 = 0 := by
      simp only [List.length_cons] at hp
      omega
    obtain ⟨bs, hbs, hlen⟩ := fromhexAux_allhex_even rest hrest hp'
    refine ⟨(16 * v1 + v2) :: bs, ?_, ?_⟩
    · rw [fromhexAux.eq_2, if_neg (hexVal_ne_space hc1), hv1, hv2, hbs]
      rfl
    · simp only [List.length_cons]
      omega

-- Helper lemmas: every character accepted by the base-16 grammar lies in
-- the alphabet described by pyIntChar.

theorem pyHexDigits_some_mem :
    ∀ (cs : List Char) (acc n : Nat), pyHexDigits acc cs = some n →
      ∀ c ∈ cs, (hexVal c).isSome ∨ c = '_'
  | [], _, _, _, c, hc => by simp at hc
  | [c0], _, n, h, c, hc => by
    simp only [List.mem_singleton] at hc
    subst hc
    rw [pyHexDigits.eq_3] at h
    by_cases h0 : c = '_'
    · exact Or.inr h0
    · rw [if_neg h0] at h
      left
      rcases hh : hexVal c with _ | v
      · simp [hh] at h
      · simp [hh]
  | c0 :: c1 :: cs2, acc, n, h, c, hc => by
    rw [pyHexDigits.eq_2] at h
    by_cases h0 : c0 = '_'
    · subst h0
      rw [if_pos rfl] at h
      rcases hh : hexVal c1 with _ | v
      · simp [hh] at h
      · simp only [hh] at h
        rcases List.mem_cons.mp hc with rfl | hc'
        · exact Or.inr rfl
        rcases List.mem_cons.mp hc' with rfl | hc''
        · exact Or.inl (by simp [hh])
        · exact pyHexDigits_some_mem cs2 _ n h c hc''
    · rw [if_neg h0] at h
      rcases hh : hexVal c0 with _ | v
      · simp [hh] at h
      · simp only [hh] at h
        rcases List.mem_cons.mp hc with rfl | hc'
        · exact Or.inl (by simp [hh])
        · exact pyHexDigits_some_mem (c1 :: cs2) _ n h c hc'

theorem pyHexStart_some_mem {cs : List Char} {n : Nat} (h : pyHexStart cs = some n) :
    ∀ c ∈ cs, (hexVal c).isSome ∨ c = '_' := by
  rcases cs with _ | ⟨c0, cs⟩
  · intro c hc; simp at hc
  · rw [pyHexStart.eq_2] at h
    rcases hh : hexVal c0 with _ | v
    · simp [hh] at h
    · simp only [hh] at h
      intro c hc
      rcases List.mem_cons.mp hc with rfl | hc'
      · exact Or.inl (by simp [hh])
      · exact pyHexDigits_some_mem cs v n h c hc'

theorem pyHexBody_some_mem {cs : List Char} {n : Nat} (h : pyHexBody cs = some n) :
    ∀ c ∈ cs, (hexVal c).isSome ∨ c = '_' ∨ c = 'x' ∨ c = 'X' := by
  have base : ∀ {l : List Char}, pyHexStart l = some n →
      ∀ c ∈ l, (hexVal c).isSome ∨ c = '_' ∨ c = 'x' ∨ c = 'X' := by
    intro l hl c hc
    rcases pyHexStart_some_mem hl c hc with h1 | h1
    · exact Or.inl h1
    · exact Or.inr (Or.inl h1)
  rcases cs with _ | ⟨c0, _ | ⟨c1, rest⟩⟩
  · intro c hc; simp at hc
  · exact base h
  · by_cases hmk : c0 = '0' ∧ (c1 = 'x' ∨ c1 = 'X')
    · rcases rest with _ | ⟨c2, rest2⟩
      · simp only [pyHexBody] at h
        rw [if_pos hmk] at h
        simp at h
      · simp only [pyHexBody] at h
        rw [if_pos hmk] at h
        intro c hc
        rcases List.mem_cons.mp hc with rfl | hc'
        · exact Or.inl (by rw [hmk.1]; decide)
        rcases List.mem_cons.mp hc' with rfl | hc''
        · rcases hmk.2 with h2 | h2
          · exact Or.inr (Or.inr (Or.inl h2))
          · exact Or.inr (Or.inr (Or.inr h2))
        · by_cases hu : c2 = '_'
          · rw [if_pos hu] at h
            rcases List.mem_cons.mp hc'' with rfl | hc3
            · exact Or.inr (Or.inl hu)
            · exact base h c hc3
          · rw [if_neg hu] at h
            exact base h c hc''
    · simp only [pyHexBody] at h
      rw [if_neg hmk] at h
      exact base h

theorem pyIntCharAscii_of_body {c : Char}
    (h : (hexVal c).isSome ∨ c = '_' ∨ c = 'x' ∨ c = 'X') :
    pyIntCharAscii c = true := by
  simp only [pyIntCharAscii, Bool.or_eq_true, beq_iff_eq]
  tauto

theorem pyInt16Ascii_some_mem {s : List Char} {n : Int} (h : pyInt16Ascii s = some n) :
    ∀ c ∈ trimWs s, pyIntCharAscii c = true := by
  intro c hc
  rcases ht : trimWs s with _ | ⟨c0, rest⟩
  · rw [ht] at hc; simp at hc
  · simp only [pyInt16Ascii, ht] at h
    rw [ht] at hc
    by_cases hp : c0 = '+'
    · rw [if_pos hp] at h
      rcases List.mem_cons.mp hc with rfl | hc'
      · simp [pyIntCharAscii, hp]
      · rcases hb : pyHexBody rest with _ | m
        · simp [hb] at h
        · exact pyIntCharAscii_of_body (pyHexBody_some_mem hb c hc')
    · rw [if_neg hp] at h
      by_cases hm : c0 = '-'
      · rw [if_pos hm] at h
        rcases List.mem_cons.mp hc with rfl | hc'
        · simp [pyIntCharAscii, hm]
        · rcases hb : pyHexBody rest with _ | m
          · simp [hb] at h
          · exact pyIntCharAscii_of_body (pyHexBody_some_mem hb c hc')
      · rw [if_neg hm] at h
        rcases hb : pyHexBody (c0 :: rest) with _ | m
        · simp [hb] at h
        · exact pyIntCharAscii_of_body (pyHexBody_some_mem hb c hc)

theorem pyInt16Ascii_none_of_bad_char {s : List Char} {c : Char} (hc : c ∈ s)
    (hbad : pyIntCharAscii c = false) : pyInt16Ascii s = none := by
  have hnw : isPyWs c = false := by
    simp only [pyIntCharAscii, Bool.or_eq_false_iff] at hbad
    exact hbad.1.1.2
  rcases hmem : pyInt16Ascii s with _ | n
  · rfl
  · have := pyInt16Ascii_some_mem hmem c (mem_trimWs hc hnw)
    rw [hbad] at this
    exact absurd this (by simp)

theorem pyInt16_none_of_bad_char {s : List Char} {c : Char} (hc : c ∈ s)
    (hbad : pyIntChar c = false) : pyInt16 s = none := by
  have hparts : pyIntCharAscii c = false ∧ pyWsHigh c = false ∧
      (pyUniDecimal c).isSome = false := by
    simp only [pyIntChar, Bool.or_eq_false_iff] at hbad
    exact ⟨hbad.1.1, hbad.1.2, hbad.2⟩
  rw [pyInt16]
  by_cases h127 : c.toNat < 127
  · have hmem : transformChar c ∈ s.map transformChar := List.mem_map_of_mem _ hc
    rw [transformChar_lt127 h127] at hmem
    exact pyInt16Ascii_none_of_bad_char hmem hparts.1
  · have ht : transformChar c = '?' := by
      rw [transformChar, if_neg h127, if_neg (by simp [hparts.2.1])]
      rcases hd : pyUniDecimal c with _ | v
      · rfl
      · rw [hd] at hparts
        exact absurd hparts.2.2 (by simp)
    have hmem : transformChar c ∈ s.map transformChar := List.mem_map_of_mem _ hc
    rw [ht] at hmem
    exact pyInt16Ascii_none_of_bad_char hmem (by decide)

-- Helper lemmas: reductions of the codec wrappers.

theorem mem_of_mem_dropWhile {α : Type} {p : α → Bool} :
    ∀ {l : List α} {c : α}, c ∈ l.dropWhile p → c ∈ l
  | [], _, h => by simp at h
  | a :: l, c, h => by
    by_cases ha : p a
    · rw [List.dropWhile_cons_of_pos ha] at h
      exact List.mem_cons_of_mem a (mem_of_mem_dropWhile h)
    · rwa [List.dropWhile_cons_of_neg ha] at h

theorem quantity_decoder_prefixed (rest : List Char) :
    quantity_decoder (Json.str ('0' :: 'x' :: rest))
      = if 1 < rest.length ∧ rest.headD ' ' = '0' then
          .error (.invalidParams "Invalid quantity encoding")
        else
          match pyInt16 rest with
          | some n => .ok n
          | none => .error (.invalidParams "Invalid quantity encoding") := by
  have hsw : startsWith0x ('0' :: 'x' :: rest) = true := rfl
  have hdrop : ('0' :: 'x' :: rest).drop 2 = rest := rfl
  have hiff : (3 < ('0' :: 'x' :: rest).length ∧ ('0' :: 'x' :: rest).getD 2 ' ' = '0')
      ↔ (1 < rest.length ∧ rest.headD ' ' = '0') := by
    rcases rest with _ | ⟨c, t⟩
    · simp
    · simp only [List.length_cons, List.getD_cons_succ, List.getD_cons_zero, List.headD_cons]
      constructor
      · rintro ⟨h1, h2⟩; exact ⟨by omega, h2⟩
      · rintro ⟨h1, h2⟩; exact ⟨by omega, h2⟩
  simp only [quantity_decoder, hsw, not_true, if_false, hdrop]
  rcases Decidable.em (1 < rest.length ∧ rest.headD ' ' = '0') with hcond | hcond
  · rw [if_pos (hiff.mpr hcond), if_pos hcond]
  · rw [if_neg (fun hx => hcond (hiff.mp hx)), if_neg hcond]

theorem decode_hex_try_some {digits : List Char} {bs : List Nat}
    (h : fromhexAux digits = some bs) : decode_hex_try digits = .ok bs := by
  simp only [decode_hex_try, decode_hex, h]

theorem decode_hex_try_none {digits : List Char}
    (h : fromhexAux digits = none) : decode_hex_try digits = .error .valueError := by
  simp only [decode_hex_try, decode_hex, h]

theorem data_decoder_str_prefixed (rest : List Char) :
    data_decoder_str ('0' :: 'x' :: rest)
      = if ('0' :: 'x' :: rest).length % 2 ≠ 0 then
          if ('0' :: 'x' :: rest).length < 66 then
            decode_hex_try
              (List.replicate (64 - (('0' :: 'x' :: rest).length - 2)) '0' ++ rest)
          else .error .assertionError
        else decode_hex_try rest := rfl

theorem data_decoder_str_no0x {s : List Char} (h : startsWith0x s = false) :
    data_decoder_str s = data_decoder_str ('0' :: 'x' :: s) := by
  have hsw : startsWith0x ('0' :: 'x' :: s) = true := rfl
  simp [data_decoder_str, h, hsw]

-- Helper lemmas: exception-propagating sequencing and the branch decoder.

theorem pyTry_ok {α β : Type} (a : α) (f : α → Except PyErr β) :
    pyTry (.ok a) f = f a := rfl

theorem pyTry_error {α β : Type} (e : PyErr) (f : α → Except PyErr β) :
    pyTry (.error e) f = .error e := rfl

theorem pyTry_exists_error {α β : Type} (x : Except PyErr α) (f : α → Except PyErr β)
    (hf : ∀ a, ∃ e, f a = .error e) : ∃ e, pyTry x f = .error e := by
  rcases x with e | a
  · exact ⟨e, rfl⟩
  · exact hf a

theorem branch_getDataDefault_none {d : List (String × Json)} {b : Option Branch}
    (h : getDataDefault d "branch" branch_decoder none = .ok b) : b = none := by
  simp only [getDataDefault] at h
  rcases hl : d.lookup "branch" with _ | j
  · simp only [hl] at h
    injection h with h2
    exact h2.symm
  · simp only [hl, branch_decoder] at h
    rcases ho : obj_decoder j BranchCls with e | br
    · rw [ho] at h
      simp [Except.map] at h
    · rw [ho] at h
      simp only [Except.map] at h
      injection h with h2
      exact h2.symm

-- Claim theorems.

/-- C3: for every non-negative integer x, decoding the string produced by the
quantity encoder yields x back: quantity_decoder (quantity_encoder x) = x. -/
theorem quantity_roundtrip (x : Nat) :
    Except.bind (quantity_encoder (x : Int)) (fun s => quantity_decoder (Json.str s))
      = Except.ok (x : Int) := by
  have hng : ¬ ((x : Int) < 0) := by omega
  have htoNat : ((x : Int)).toNat = x := by simp
  rcases Nat.eq_zero_or_pos x with rfl | hx
  · have h0 : intToBigEndian 0 = [] := by
      rw [intToBigEndian]
      exact dif_pos rfl
    have henc : quantity_encoder ((0 : Nat) : Int) = .ok ('0' :: 'x' :: '0' :: []) := by
      simp only [quantity_encoder, htoNat]
      rw [if_neg hng, h0]
      rfl
    rw [henc]
    show quantity_decoder (Json.str ('0' :: 'x' :: '0' :: [])) = .ok ((0 : Nat) : Int)
    decide
  · have hbytes : ∀ b ∈ intToBigEndian x, b < 256 := intToBigEndian_lt x
    have hhex : ∀ c ∈ encodeHex (intToBigEndian x), (hexVal c).isSome :=
      encodeHex_all_hex hbytes
    have hval : hexFold 0 (encodeHex (intToBigEndian x)) = x := by
      rw [hexFold_encodeHex (intToBigEndian x) 0 hbytes, beVal_intToBigEndian]
    rcases hd0 : (encodeHex (intToBigEndian x)).dropWhile (fun c => c == '0')
        with _ | ⟨c, tl⟩
    · exfalso
      have hcontr : hexFold 0 ([] : List Char) = x := by
        rw [← hd0, hexFold_dropWhile_zero, hval]
      simp [hexFold] at hcontr
      omega
    · have hvd : hexFold 0 (c :: tl) = x := by
        rw [← hd0, hexFold_dropWhile_zero, hval]
      have hdhex : ∀ c' ∈ c :: tl, (hexVal c').isSome := by
        intro c' hc'
        exact hhex c' (mem_of_mem_dropWhile (hd0 ▸ hc'))
      have hc0 := dropWhile_head_false hd0
      have hcne : c ≠ '0' := by simpa using hc0
      have henc : quantity_encoder (x : Int) = .ok ('0' :: 'x' :: c :: tl) := by
        simp only [quantity_encoder, htoNat]
        rw [if_neg hng, hd0]
        rfl
      rw [henc]
      show quantity_decoder (Json.str ('0' :: 'x' :: c :: tl)) = .ok (x : Int)
      rw [quantity_decoder_prefixed]
      rw [if_neg (by
        rintro ⟨_, hand⟩
        exact hcne (by simpa using hand))]
      rw [pyInt16_all_hex hdhex (by simp) (by simpa using hcne), hvd]

/-- C4: encoding any byte buffer with data_encoder (without a length) and
decoding the result with data_decoder returns the original buffer. -/
theorem data_roundtrip (b : List Nat) (hb : ∀ x ∈ b, x < 256) :
    data_decoder_str (data_encoder b none) = .ok b := by
  show data_decoder_str ('0' :: 'x' :: encodeHex b) = .ok b
  rw [data_decoder_str_prefixed]
  have hlen : ('0' :: 'x' :: encodeHex b).length = 2 * b.length + 2 := by
    simp only [List.length_cons, encodeHex_length]
  rw [hlen, if_neg (by omega)]
  exact decode_hex_try_some (fromhexAux_encodeHex b hb)

/-- Witness for C4 at the concrete buffer [0, 255]. -/
theorem data_roundtrip_witness :
    data_decoder_str (data_encoder [0, 255] none) = .ok [0, 255] :=
  data_roundtrip [0, 255] (by decide)

/-- C7: on a string of hex digits whose digit count is odd (with the `0x`
marker prepended when missing), data_decoder zero-left-pads the digits to 64
and returns a 32-byte buffer when the digit count is at most 63, fails with
the assertion when it exceeds 63, and applies no such ceiling to even digit
counts. -/
theorem data_decoder_odd_padding :
    (∀ ds : List Char, (∀ c ∈ ds, (hexVal c).isSome) → ds.length % 2 = 1 →
       ds.length ≤ 63 →
       ∃ bs, data_decoder_str ('0' :: 'x' :: ds) = .ok bs ∧ bs.length = 32) ∧
    (∀ ds : List Char, (∀ c ∈ ds, (hexVal c).isSome) → ds.length % 2 = 1 →
       63 < ds.length →
       data_decoder_str ('0' :: 'x' :: ds) = .error .assertionError) ∧
    (∀ ds : List Char, (∀ c ∈ ds, (hexVal c).isSome) → ds.length % 2 = 0 →
       ∃ bs, data_decoder_str ('0' :: 'x' :: ds) = .ok bs ∧ 2 * bs.length = ds.length) ∧
    (∀ s : List Char, startsWith0x s = false →
       data_decoder_str s = data_decoder_str ('0' :: 'x' :: s)) := by
  refine ⟨?_, ?_, ?_, ?_⟩
  · intro ds hhex hodd hle
    rw [data_decoder_str_prefixed]
    have hl : ('0' :: 'x' :: ds).length = ds.length + 2 := by simp
    rw [hl, if_pos (by omega), if_pos (by omega)]
    have hsub : ds.length + 2 - 2 = ds.length := by omega
    rw [hsub]
    have hall : ∀ c ∈ List.replicate (64 - ds.length) '0' ++ ds, (hexVal c).isSome := by
      intro c hc
      rcases List.mem_append.mp hc with h1 | h1
      · have h2 := List.eq_of_mem_replicate h1
        subst h2
        decide
      · exact hhex c h1
    have hlen2 : (List.replicate (64 - ds.length) '0' ++ ds).length = 64 := by
      simp only [List.length_append, List.length_replicate]
      omega
    obtain ⟨bs, hbs, hbl⟩ := fromhexAux_allhex_even _ hall (by rw [hlen2])
    rw [hlen2] at hbl
    exact ⟨bs, decode_hex_try_some hbs, by omega⟩
  · intro ds hhex hodd hgt
    rw [data_decoder_str_prefixed]
    have hl : ('0' :: 'x' :: ds).length = ds.length + 2 := by simp
    rw [hl, if_pos (by omega), if_neg (by omega)]
  · intro ds hhex heven
    rw [data_decoder_str_prefixed]
    have hl : ('0' :: 'x' :: ds).length = ds.length + 2 := by simp
    rw [hl, if_neg (by omega)]
    obtain ⟨bs, hbs, hbl⟩ := fromhexAux_allhex_even ds hhex heven
    exact ⟨bs, decode_hex_try_some hbs, hbl⟩
  · intro s h
    exact data_decoder_str_no0x h

/-- Witness for C7 at the one-digit string f: data_decoder pads it to 32
bytes. -/
theorem data_decoder_odd_padding_witness :
    ∃ bs, data_decoder_str ('0' :: 'x' :: 'f' :: []) = .ok bs ∧ bs.length = 32 :=
  data_decoder_odd_padding.1 ['f'] (by decide) (by decide) (by decide)

/-- C9: data_encoder with a length argument right-justifies the hex digits
with zeros to length*2 characters and never truncates; in particular
data_encoder b'\xff' 3 = 0x0000ff. -/
theorem data_encoder_padding :
    (∀ (b : List Nat) (l : Nat),
       data_encoder b (some l)
           = '0' :: 'x' :: (List.replicate (l * 2 - (encodeHex b).length) '0' ++ encodeHex b)
         ∧ (data_encoder b (some l)).length = 2 + max (l * 2) (encodeHex b).length
         ∧ (encodeHex b).length = 2 * b.length) ∧
    data_encoder [255] (some 3) = '0' :: 'x' :: '0' :: '0' :: '0' :: '0' :: 'f' :: 'f' :: [] := by
  refine ⟨fun b l => ⟨rfl, ?_, encodeHex_length b⟩, by decide⟩
  show ('0' :: 'x' :: (List.replicate (l * 2 - (encodeHex b).length) '0' ++ encodeHex b)).length
      = 2 + max (l * 2) (encodeHex b).length
  simp only [List.length_cons, List.length_append, List.length_replicate]
  omega

/-- C6 counterexample: the string 0x followed by a space and 5 contains a
character after the prefix that is not a hex digit, yet quantity_decoder
accepts it and returns 5 (Python's int strips the whitespace), refuting the
claim that every such string is rejected. -/
theorem quantity_decoder_accepts_space :
    quantity_decoder (.str ('0' :: 'x' :: ' ' :: '5' :: [])) = .ok 5 ∧
    (hexVal ' ').isSome = false := by decide

/-- C6 (amended): quantity_decoder rejects every non-string, every string
without the 0x marker, every string with a leading zero digit after the
marker (when more than one digit follows), and every string holding a
character after the marker outside the alphabet Python's int(_, 16) can
accept — ASCII hex digits, underscores, signs, whitespace, the x/X of a
redundant base marker, and (via CPython's pre-parse transform) Unicode
whitespace and Unicode decimal digits; in particular 0x0ff, ff and the
number 123 are each rejected. -/
theorem quantity_decoder_rejections :
    (∀ j : Json, jsonIsStr j = false →
       quantity_decoder j = .error (.invalidParams "Invalid quantity encoding")) ∧
    (∀ s : List Char, startsWith0x s = false →
       quantity_decoder (.str s) = .error (.invalidParams "Invalid quantity encoding")) ∧
    (∀ rest : List Char, 1 < rest.length → rest.headD ' ' = '0' →
       quantity_decoder (.str ('0' :: 'x' :: rest))
         = .error (.invalidParams "Invalid quantity encoding")) ∧
    (∀ (rest : List Char) (c : Char), c ∈ rest → pyIntChar c = false →
       quantity_decoder (.str ('0' :: 'x' :: rest))
         = .error (.invalidParams "Invalid quantity encoding")) ∧
    quantity_decoder (.str ('0' :: 'x' :: '0' :: 'f' :: 'f' :: []))
      = .error (.invalidParams "Invalid quantity encoding") ∧
    quantity_decoder (.str ('f' :: 'f' :: []))
      = .error (.invalidParams "Invalid quantity encoding") ∧
    quantity_decoder (.num 123) = .error (.invalidParams "Invalid quantity encoding") := by
  refine ⟨?_, ?_, ?_, ?_, by decide, by decide, by decide⟩
  · intro j hj
    cases j with
    | str s => simp [jsonIsStr] at hj
    | num n => rfl
    | jbool b => rfl
    | null => rfl
    | arr l => rfl
    | obj f => rfl
  · intro s h
    cases s with
    | nil => rfl
    | cons c cs =>
      simp only [quantity_decoder]
      rw [if_pos (by simp [h])]
  · intro rest h1 h2
    rw [quantity_decoder_prefixed, if_pos ⟨h1, h2⟩]
  · intro rest c hc hbad
    rw [quantity_decoder_prefixed]
    rcases Decidable.em (1 < rest.length ∧ rest.headD ' ' = '0') with hcond | hcond
    · rw [if_pos hcond]
    · rw [if_neg hcond, pyInt16_none_of_bad_char hc hbad]

/-- Witness for C6 (amended): the non-string number 5 is rejected. -/
theorem quantity_decoder_rejections_witness :
    quantity_decoder (.num 5) = .error (.invalidParams "Invalid quantity encoding") :=
  quantity_decoder_rejections.1 (Json.num 5) rfl

/-- C1 (code bug): on a fully valid parameter object (nonce present and
decodable, v, r, s non-zero, branch present and decodable, no withdraw), the
handler does not construct and submit a transaction: because branch_decoder
returns None, it raises InvalidParams "Missing branch" instead of returning
a hash. -/
theorem sendTransaction_fully_valid_missing_branch :
    sendTransaction (Json.obj
      [("nonce", Json.str ('0' :: 'x' :: '1' :: [])),
       ("v", Json.str ('0' :: 'x' :: '1' :: [])),
       ("r", Json.str ('0' :: 'x' :: '1' :: [])),
       ("s", Json.str ('0' :: 'x' :: '1' :: [])),
       ("branch", Json.str ('0' :: 'x' :: '2' :: []))])
      = .error (.invalidParams "Missing branch") := by decide

/-- C2 counterexample: a mapping whose data field is the number 0 makes
sendTransaction raise AttributeError (data_decoder calls .startswith on a
non-string), not InvalidParams, refuting the claim that every input mapping
raises InvalidParams. -/
theorem sendTransaction_nonstr_data_attribute_error :
    sendTransaction (Json.obj [("data", Json.num 0)]) = .error .attributeError ∧
    PyErr.attributeError.isInvalidParams = false := by decide

/-- C2 (amended): for every input mapping sendTransaction raises some error
and never reaches transaction construction and submission (a successful
return carries the submitted transaction, so no error means submission);
the branch field is always None, hence "Missing branch" or an earlier
failure always fires. -/
theorem sendTransaction_never_succeeds (d : List (String × Json)) :
    ∃ e, sendTransaction (Json.obj d) = .error e := by
  simp only [sendTransaction]
  apply pyTry_exists_error; intro to_
  apply pyTry_exists_error; intro startgas
  apply pyTry_exists_error; intro gasprice
  apply pyTry_exists_error; intro value
  apply pyTry_exists_error; intro data_
  apply pyTry_exists_error; intro v
  apply pyTry_exists_error; intro r
  apply pyTry_exists_error; intro s
  apply pyTry_exists_error; intro nonce
  rcases hbr : getDataDefault d "branch" branch_decoder none with e | br
  · exact ⟨e, rfl⟩
  · rw [pyTry_ok]
    have hb0 : br = none := branch_getDataDefault_none hbr
    subst hb0
    apply pyTry_exists_error; intro withdraw
    apply pyTry_exists_error; intro withdrawTo
    rcases nonce with _ | nv
    · exact ⟨_, rfl⟩
    · by_cases hv : v = 0 ∨ r = 0 ∨ s = 0
      · exact ⟨.invalidParams "Mising v, r, s", by simp [hv]⟩
      · exact ⟨.invalidParams "Missing branch", by simp [hv]⟩

/-- C5 counterexample: with nonce present, v, r, s non-zero, branch present
and decodable, withdraw positive and withdrawTo absent, the handler raises
"Missing branch" (branch_decoder returns None), not the "Missing withdrawTo"
the claim requires. -/
theorem sendTransaction_withdraw_counterexample :
    sendTransaction (Json.obj
      [("nonce", Json.str ('0' :: 'x' :: '1' :: [])),
       ("v", Json.str ('0' :: 'x' :: '1' :: [])),
       ("r", Json.str ('0' :: 'x' :: '1' :: [])),
       ("s", Json.str ('0' :: 'x' :: '1' :: [])),
       ("branch", Json.str ('0' :: 'x' :: '2' :: [])),
       ("withdraw", Json.str ('0' :: 'x' :: '1' :: []))])
      = .error (.invalidParams "Missing branch") ∧
    PyErr.invalidParams "Missing branch" ≠ PyErr.invalidParams "Missing withdrawTo" := by
  decide

/-- C5 (amended): for every mapping whose present fields decode
successfully, the validation chain is: missing nonce raises
"Missing nonce"; otherwise any of v, r, s zero raises "Mising v, r, s"
(sic, as spelled in the source); otherwise "Missing branch" is raised
whether or not branch was supplied, because branch_decoder returns None for
every input, and the "Missing withdrawTo" check is unreachable. -/
theorem sendTransaction_validation_chain
    (d : List (String × Json)) (to_ : Option Address)
    (startgas gasprice value : Int) (data_ : List Nat) (v r s : Int)
    (nonce : Option Int) (branch : Option Branch) (withdraw : Int)
    (withdrawTo : Option Address)
    (h1 : getDataDefault d "to" address_decoder_opt none = .ok to_)
    (h2 : getDataDefault d (if (d.lookup "gas").isSome then "gas" else "startgas")
        quantity_decoder default_startgas = .ok startgas)
    (h3 : getDataDefault d (if (d.lookup "gasPrice").isSome then "gasPrice" else "gasprice")
        quantity_decoder default_gasprice = .ok gasprice)
    (h4 : getDataDefault d "value" quantity_decoder 0 = .ok value)
    (h5 : getDataDefault d "data" data_decoder [] = .ok data_)
    (h6 : getDataDefault d "v" quantity_decoder 0 = .ok v)
    (h7 : getDataDefault d "r" quantity_decoder 0 = .ok r)
    (h8 : getDataDefault d "s" quantity_decoder 0 = .ok s)
    (h9 : getDataDefault d "nonce" quantity_decoder_opt none = .ok nonce)
    (h10 : getDataDefault d "branch" branch_decoder none = .ok branch)
    (h11 : getDataDefault d "withdraw" quantity_decoder 0 = .ok withdraw)
    (h12 : getDataDefault d "withdrawTo" address_decoder_opt none = .ok withdrawTo) :
    sendTransaction (Json.obj d)
      = if nonce = none then .error (.invalidParams "Missing nonce")
        else if v = 0 ∨ r = 0 ∨ s = 0 then .error (.invalidParams "Mising v, r, s")
        else .error (.invalidParams "Missing branch") := by
  have hb0 : branch = none := branch_getDataDefault_none h10
  subst hb0
  simp only [sendTransaction, h1, h2, h3, h4, h5, h6, h7, h8, h9, h10, h11, h12,
    pyTry_ok]
  rcases nonce with _ | nv
  · simp
  · by_cases hv : v = 0 ∨ r = 0 ∨ s = 0
    · simp [hv]
    · simp [hv]

/-- Witness for C5 (amended): the empty mapping decodes every field to its
default and fails with "Missing nonce". -/
theorem sendTransaction_validation_chain_witness :
    sendTransaction (Json.obj []) = .error (.invalidParams "Missing nonce") := by
  have h := sendTransaction_validation_chain [] none default_startgas default_gasprice
    0 [] 0 0 0 none none 0 none rfl rfl rfl rfl rfl rfl rfl rfl rfl rfl rfl rfl
  simpa using h

/-- C8 (code bug): on an even-length non-hex string the hex decode raises
ValueError (bytes.fromhex on Python 3), which the `except TypeError` clause
does not catch, so the InvalidParams wrapping never happens. -/
theorem data_decoder_nonhex_value_error :
    data_decoder_str ('0' :: 'x' :: 'g' :: 'g' :: []) = .error .valueError ∧
    PyErr.valueError.isInvalidParams = false := by decide

/-- C10 (code bug): for every branch and count returned by the master
service, the result's branch entry is None (branch_encoder returns None),
never the hex string of the serialized branch. -/
theorem getTransactionCount_branch_none (br : Branch) (cnt : Nat) :
    ∃ cs, getTransactionCount br cnt = .ok ⟨none, cs⟩ ∧
      quantity_encoder (cnt : Int) = .ok cs := by
  have hng : ¬ ((cnt : Int) < 0) := by omega
  rcases henc : quantity_encoder (cnt : Int) with e | cs
  · exfalso
    simp only [quantity_encoder] at henc
    rw [if_neg hng] at henc
    exact absurd henc (by simp)
  · refine ⟨cs, ?_, rfl⟩
    unfold getTransactionCount
    rw [henc, pyTry_ok]
    rfl
